import Mathlib

/-!
# QuranRAG reference-detection pipeline: a shallow embedding

This file embeds, in Lean, the core of the QuranRAG transcript-annotation
pipeline (the TypeScript sources `arabic-utils`, `rag`, and `processor`)
and settles the frozen specification claims against it.

JS strings are modelled as `List Char` (code points; the sources only rely
on BMP behaviour, where this agrees with UTF-16 code units).  JS numbers
used for similarity/confidence scores are modelled as `ℚ`; character
offsets as `ℤ` (model-reported offsets are arbitrary).  External services
(vector search, generative-model calls, persistence) are modelled as
explicit oracle inputs; a `none` oracle value models the service throwing,
matching the `try/catch` structure of the source.
-/

namespace QuranRAG

/-- JS strings, as lists of characters. -/
abbrev Str := List Char

/-- The character class of the JS regex `\s` (whitespace). -/
def isJsSpace (c : Char) : Bool :=
  c = ' ' || c = '\t' || c = '\n' || c = '\r' ||
  c.toNat = 0xB || c.toNat = 0xC || c.toNat = 0xA0 ||
  c.toNat = 0x1680 || (0x2000 ≤ c.toNat && c.toNat ≤ 0x200A) ||
  c.toNat = 0x2028 || c.toNat = 0x2029 || c.toNat = 0x202F ||
  c.toNat = 0x205F || c.toNat = 0x3000 || c.toNat = 0xFEFF

/-- JS `String.prototype.trim`: strip whitespace from both ends. -/
def jsTrim (s : Str) : Str :=
  ((s.dropWhile isJsSpace).reverse.dropWhile isJsSpace).reverse

/-- JS `String.prototype.toLowerCase`, modelled by `Char.toLower`
(they agree on ASCII, which is all the concrete inputs below use). -/
def jsToLower (s : Str) : Str := s.map Char.toLower

/-- JS `hay.indexOf(needle)` helper, structurally recursive on the
haystack. -/
def firstIndexOfAux (needle : Str) : Str → Option Nat
  | [] => if needle.isPrefixOf [] then some 0 else none
  | c :: t =>
    if needle.isPrefixOf (c :: t) then some 0
    else (firstIndexOfAux needle t).map (fun n => n + 1)

/-- JS `hay.indexOf(needle)`: index of the first (leftmost) occurrence of
`needle` in `hay`, `none` for JS's `-1`.  `indexOf` of the empty string
is `0`, as in JS. -/
def firstIndexOf (hay needle : Str) : Option Nat := firstIndexOfAux needle hay

/-- `text.split(/\n\n+/)` (from `splitIntoChunks`), as a one-character
scan.  `skipping = true` means the scan is inside a separator run of
newlines (the regex `\n\n+` is greedy, so every further newline is part of
the separator).  A separator starts at a newline immediately followed by
another one; the field accumulated so far is emitted and the run is
consumed. -/
def splitParasAux : Bool → Str → Str → List Str
  | _, acc, [] => [acc.reverse]
  | skipping, acc, c :: rest =>
    if skipping = true ∧ c = '\n' then splitParasAux true acc rest
    else if c = '\n' ∧ rest.head? = some '\n' then
      acc.reverse :: splitParasAux true [] rest
    else splitParasAux false (c :: acc) rest

/-- The paragraph split `text.split(/\n\n+/)` of `splitIntoChunks`. -/
def splitParas (text : Str) : List Str := splitParasAux false [] text

/-- Sentence-terminal punctuation of the regex `(?<=[.!?])`. -/
def isTerminal (c : Char) : Bool := c = '.' || c = '!' || c = '?'

/-- `paragraph.split(/(?<=[.!?])\s+/)`: split at a (maximal, greedy)
whitespace run immediately preceded by `.`, `!` or `?`; the punctuation
stays with the left field, the whitespace run is consumed.  Same
one-character scan shape as `splitParasAux`. -/
def splitSentencesAux : Bool → Str → Str → List Str
  | _, acc, [] => [acc.reverse]
  | skipping, acc, c :: rest =>
    if skipping = true ∧ isJsSpace c = true then splitSentencesAux true acc rest
    else if isTerminal c = true ∧ (match rest.head? with
        | some r => isJsSpace r
        | none => false) = true then
      (c :: acc).reverse :: splitSentencesAux true [] rest
    else splitSentencesAux false (c :: acc) rest

/-- The sentence split used for oversized paragraphs in `splitIntoChunks`. -/
def splitSentences (paragraph : Str) : List Str :=
  splitSentencesAux false [] paragraph

/-- `currentChunk += (currentChunk ? '\n\n' : '') + paragraph`. -/
def jsAppendPara (cur p : Str) : Str :=
  if cur = [] then p else cur ++ '\n' :: '\n' :: p

/-- State of the chunk-accumulation loop in `splitIntoChunks`:
the `chunks` array and the mutable `currentChunk`. -/
structure ChunkAcc where
  chunks : List Str
  currentChunk : Str
deriving DecidableEq

/-- Body of the inner `for (const sentence of sentences)` loop of
`splitIntoChunks` (state: chunks so far, `sentenceChunk`). -/
def sentenceStep (maxChunkSize : Nat) (st : List Str × Str) (sentence : Str) :
    List Str × Str :=
  if maxChunkSize < st.2.length + sentence.length then
    (if st.2 = [] then st.1 else st.1 ++ [jsTrim st.2], sentence)
  else
    (st.1, if st.2 = [] then sentence else st.2 ++ ' ' :: sentence)

/-- Body of the outer `for (const paragraph of paragraphs)` loop of
`splitIntoChunks`. -/
def paraStep (maxChunkSize : Nat) (st : ChunkAcc) (paragraph : Str) : ChunkAcc :=
  if maxChunkSize < st.currentChunk.length + paragraph.length then
    let chunks1 := if st.currentChunk = [] then st.chunks
      else st.chunks ++ [jsTrim st.currentChunk]
    if maxChunkSize < paragraph.length then
      let folded := (splitSentences paragraph).foldl (sentenceStep maxChunkSize)
        (chunks1, [])
      ⟨folded.1, folded.2⟩
    else
      ⟨chunks1, paragraph⟩
  else
    ⟨st.chunks, jsAppendPara st.currentChunk paragraph⟩

/-- `splitIntoChunks(text, maxChunkSize)` from `arabic-utils`: split on
blank-line paragraph boundaries, re-split oversized paragraphs on sentence
boundaries, accumulate up to the size limit. -/
def splitIntoChunks (text : Str) (maxChunkSize : Nat) : List Str :=
  let st := (splitParas text).foldl (paraStep maxChunkSize) ⟨[], []⟩
  if st.currentChunk = [] then st.chunks else st.chunks ++ [jsTrim st.currentChunk]

/-! ## Arabic text normalization (`arabic-utils`) -/

/-- Membership in the `ARABIC_DIACRITICS` regex class `[ً-ٰٟ]`. -/
def isTashkeel (c : Char) : Bool :=
  (0x64B ≤ c.toNat && c.toNat ≤ 0x65F) || c.toNat = 0x670

/-- `removeDiacritics`: strip tashkeel marks. -/
def removeDiacritics (s : Str) : Str := s.filter (fun c => !isTashkeel c)

/-- First `ARABIC_NORMALIZATIONS` rule: alif variants `آ أ إ` to bare alif. -/
def normAlif (c : Char) : Char :=
  if c.toNat = 0x622 || c.toNat = 0x623 || c.toNat = 0x625 then Char.ofNat 0x627 else c

/-- Second rule: ta marbuta `ة` to `ه`. -/
def normTaMarbuta (c : Char) : Char :=
  if c.toNat = 0x629 then Char.ofNat 0x647 else c

/-- Third rule: alif maksura `ى` to `ي`. -/
def normAlifMaksura (c : Char) : Char :=
  if c.toNat = 0x649 then Char.ofNat 0x64A else c

/-- Fourth rule: waw with hamza `ؤ` to `و`. -/
def normWawHamza (c : Char) : Char :=
  if c.toNat = 0x624 then Char.ofNat 0x648 else c

/-- Fifth rule: ya with hamza `ئ` to `ي`. -/
def normYaHamza (c : Char) : Char :=
  if c.toNat = 0x626 then Char.ofNat 0x64A else c

/-- `.replace(/\s+/g, ' ')` helper: `skipping = true` while inside a
whitespace run whose first character has already been replaced by a
space. -/
def collapseWsAux : Bool → Str → Str
  | _, [] => []
  | skipping, c :: rest =>
    if skipping = true ∧ isJsSpace c = true then collapseWsAux true rest
    else if isJsSpace c then ' ' :: collapseWsAux true rest
    else c :: collapseWsAux false rest

/-- `.replace(/\s+/g, ' ')`: collapse each maximal whitespace run to one
space. -/
def collapseWs (s : Str) : Str := collapseWsAux false s

/-- `normalizeArabic` from `arabic-utils`: remove diacritics, apply the five
letter-variant replacements in source order, collapse whitespace, trim. -/
def normalizeArabic (s : Str) : Str :=
  jsTrim (collapseWs (((((removeDiacritics s).map normAlif).map normTaMarbuta).map
    normAlifMaksura).map normWawHamza |>.map normYaHamza))

/-- `containsArabic` from `arabic-utils`: the regex `[؀-ۿ]` test. -/
def containsArabic (s : Str) : Bool :=
  s.any (fun c => 0x600 ≤ c.toNat && c.toNat ≤ 0x6FF)

/-! ## Data model (`types`) -/

/-- The `'quran' | 'hadith'` tag. -/
inductive RefKind where
  | quran
  | hadith
deriving DecidableEq

/-- A `quran_verses` row (the optional embedding vector, never read by the
pipeline, is omitted). -/
structure QuranVerse where
  id : Nat
  surah_number : Nat
  ayah_number : Nat
  arabic_text : Str
  english_text : Str
  transliteration : Str
deriving DecidableEq

/-- A `hadith` row (embedding vector omitted, as above). -/
structure Hadith where
  id : Str
  collection : Str
  book_number : Nat
  hadith_number : Nat
  arabic_text : Str
  english_text : Str
  grade : Str
  narrator_chain : Str
deriving DecidableEq

/-- The corpus entry inside a `MatchResult`; the variant determines the TS
`type` tag (in the source the tag field is always set consistently with the
variant by `searchAll`). -/
inductive Reference where
  | verse (v : QuranVerse)
  | hadith (h : Hadith)
deriving DecidableEq

/-- A Reference Store search result: one corpus entry plus its similarity. -/
structure MatchResult where
  reference : Reference
  similarity : ℚ
deriving DecidableEq

/-- The `type` tag of a `MatchResult`. -/
def MatchResult.type (m : MatchResult) : RefKind :=
  match m.reference with
  | Reference.verse _ => RefKind.quran
  | Reference.hadith _ => RefKind.hadith

/-- A Detector candidate (`DetectedReference`): offsets are the model's
advisory positions, so they are modelled as unconstrained integers. -/
structure DetectedReference where
  type : RefKind
  original_text : Str
  corrected_text : Str
  start_index : ℤ
  end_index : ℤ
  context : Str
deriving DecidableEq

/-- A `VerifiedMatch`; the TS field `match` is a Lean keyword and is named
`matched` here. -/
structure VerifiedMatch where
  detected : DetectedReference
  matched : Option MatchResult
  confidence : ℚ
  reference_id : Option Str
deriving DecidableEq

/-- An `annotations` row as built by `processTranscript` (the random
`uuidv4()` primary key is omitted). -/
structure Annotation where
  transcript_id : Str
  type : RefKind
  reference_id : Str
  original_text : Str
  corrected_text : Str
  confidence : ℚ
  start_index : ℤ
  end_index : ℤ
deriving DecidableEq

/-- The `stats` record of a `ProcessingResult`. -/
structure Stats where
  total_detected : Nat
  quran_matches : Nat
  hadith_matches : Nat
  low_confidence_skipped : Nat
deriving DecidableEq

/-- The value returned by `processTranscript`; `annotated_text` and
`annotations` are also exactly what is persisted on success. -/
structure ProcessingResult where
  annotated_text : Str
  annotations : List Annotation
  stats : Stats
deriving DecidableEq

/-! ## Reference ids and the annotation marker syntax (`processor`) -/

/-- Decimal rendering of a natural number (JS number-to-string in a
template literal). -/
def natToChars (n : Nat) : Str := (Nat.repr n).toList

/-- `createReferenceId`: `"surah:ayah"` for verses,
`"collection:book:number"` for traditions. -/
def createReferenceId (m : MatchResult) : Str :=
  match m.reference with
  | Reference.verse v =>
      natToChars v.surah_number ++ ':' :: natToChars v.ayah_number
  | Reference.hadith h =>
      h.collection ++ ':' :: natToChars h.book_number ++ ':' ::
        natToChars h.hadith_number

/-- The literal tag embedded in a marker. -/
def kindTag : RefKind → Str
  | RefKind.quran => ['q', 'u', 'r', 'a', 'n']
  | RefKind.hadith => ['h', 'a', 'd', 'i', 't', 'h']

/-- The marker template `[[<kind>:<reference_id>|<label>]]`. -/
def mkMarker (k : RefKind) (rid label : Str) : Str :=
  '[' :: '[' :: (kindTag k ++ ':' :: rid ++ '|' :: label ++ [']', ']'])

/-- `createAnnotationMarkdown`: emit the marker, or fall back to the plain
original text when there is no match or no reference id. -/
def createAnnotationMarkdown (verified : VerifiedMatch) : Str :=
  match verified.matched, verified.reference_id with
  | some m, some rid => mkMarker m.type rid verified.detected.original_text
  | _, _ => verified.detected.original_text

/-- Strip a literal prefix, or fail. -/
def dropPrefixOpt (p s : Str) : Option Str :=
  if p.isPrefixOf s then some (s.drop p.length) else none

/-- The literal head `[[<tag>:` of the marker regexes. -/
def openTagOf (tag : Str) : Str := '[' :: '[' :: (tag ++ [':'])

/-- One attempt of the regex `\[\[<tag>:([^\|]+)\|([^\]]+)\]\]` anchored at
the start of `s`.  Both character-class groups are greedy and are followed
by a literal the class excludes, so the regex engine's answer at a fixed
position is exactly this deterministic scan: group 1 runs to the first `|`,
group 2 to the first `]`, which must start a literal `]]`. -/
def matchRefAt (tag : Str) (s : Str) : Option (Str × Str) :=
  match dropPrefixOpt (openTagOf tag) s with
  | none => none
  | some rest =>
    let ref := rest.takeWhile (fun c => c ≠ '|')
    if ref = [] then none
    else
      match rest.dropWhile (fun c => c ≠ '|') with
      | '|' :: rest2 =>
        let label := rest2.takeWhile (fun c => c ≠ ']')
        if label = [] then none
        else
          match rest2.dropWhile (fun c => c ≠ ']') with
          | ']' :: ']' :: _ => some (ref, label)
          | _ => none
      | _ => none

/-- Unanchored regex search (`String.prototype.match`): try every start
position left to right and return the leftmost match's groups. -/
def searchPattern (tag : Str) : Str → Option (Str × Str)
  | [] => none
  | c :: t =>
    match matchRefAt tag (c :: t) with
    | some r => some r
    | none => searchPattern tag t

/-- The value returned by `parseAnnotation`. -/
structure ParsedRef where
  type : RefKind
  reference : Str
  display : Str
deriving DecidableEq

/-- `parseAnnotation` from `processor`: try the `quran` marker regex first,
then the `hadith` one. -/
def parseAnnotation (s : Str) : Option ParsedRef :=
  match searchPattern (kindTag RefKind.quran) s with
  | some (r, l) => some ⟨RefKind.quran, r, l⟩
  | none =>
    match searchPattern (kindTag RefKind.hadith) s with
    | some (r, l) => some ⟨RefKind.hadith, r, l⟩
    | none => none

/-! ## Matcher/Verifier (`matchAndVerify` and `verifyMatch` in `processor`)

External calls are oracle inputs.  A `none` value for `searchResult` models
`searchAll` throwing (embedding service or vector-store failure); a `none`
value for `verifyResult` models the adjudication model call failing or
returning unparsable output, which `verifyMatch`'s own `try/catch` turns
into `{ match_index: null, confidence: 0 }`. -/

/-- The parsed adjudication response. -/
structure VerifyResponse where
  match_index : Option Nat
  confidence : ℚ
  reasoning : Str
deriving DecidableEq

/-- The external-service oracle for one `matchAndVerify` call. -/
structure MatchEnv where
  searchResult : Option (List MatchResult)
  verifyResult : Option VerifyResponse
deriving DecidableEq

/-- `CONFIDENCE_AUTO_ANNOTATE` (0.5). -/
def CONFIDENCE_AUTO_ANNOTATE : ℚ := mkRat 1 2

/-- `CONFIDENCE_SUGGEST` (0.3, declared but unused by the pipeline). -/
def CONFIDENCE_SUGGEST : ℚ := mkRat 3 10

/-- `matchAndVerify`, plus an instrumentation flag recording whether the
`verifyMatch` adjudication call was made.  Paths:
* `searchAll` throws: the outer `catch` returns no-match, confidence 0;
* zero search results: no-match, confidence 0, no adjudication call;
* otherwise `verifyMatch` is always called; a failed/unparsable call
  yields `match_index = none, confidence = 0`;
* `match_index` out of range: `matches[i]` is `undefined`, so
  `createReferenceId` throws and the outer `catch` returns no-match. -/
def matchAndVerify (env : MatchEnv) (detection : DetectedReference) :
    VerifiedMatch × Bool :=
  match env.searchResult with
  | none => (⟨detection, none, 0, none⟩, false)
  | some ms =>
    if ms.isEmpty then (⟨detection, none, 0, none⟩, false)
    else
      let vr := match env.verifyResult with
        | none => ({ match_index := none, confidence := 0,
                     reasoning := "Error".toList } : VerifyResponse)
        | some r => r
      match vr.match_index with
      | none => (⟨detection, none, vr.confidence, none⟩, true)
      | some i =>
        match ms[i]? with
        | some best =>
            (⟨detection, some best, vr.confidence,
              some (createReferenceId best)⟩, true)
        | none => (⟨detection, none, 0, none⟩, true)

/-! ## Orchestrator (`processTranscript`)

Status updates, progress callbacks and the Supabase writes are external
effects; `ProcessingResult.annotated_text` and `.annotations` are exactly
the values persisted on the success path (lines 150–161 of the source). -/

/-- The Detector and match/verify oracles for one pipeline run:
`detections i` is what `detectReferences` returns for chunk `i` (already
`[]` on any model failure, per its `try/catch`), and `matchEnvs i` is the
service oracle for the `i`-th collected candidate. -/
structure PipelineEnv where
  detections : Nat → List DetectedReference
  matchEnvs : Nat → MatchEnv

/-- The chunk loop of step 2: rebase each detection's advisory offsets by
the running `chunkOffset` (`chunk.length + 2` per chunk) and concatenate. -/
def collectDetections (det : Nat → List DetectedReference) :
    List Str → Nat → ℤ → List DetectedReference
  | [], _, _ => []
  | chunk :: rest, i, off =>
    ((det i).map (fun d =>
        { d with start_index := d.start_index + off,
                 end_index := d.end_index + off }))
      ++ collectDetections det rest (i + 1) (off + (chunk.length : ℤ) + 2)

/-- All rebased candidates of a run (`allDetections`). -/
def allDetectionsOf (env : PipelineEnv) (text : Str) : List DetectedReference :=
  collectDetections env.detections (splitIntoChunks text 2000) 0 0

/-- Step 3: `matchAndVerify` over every candidate, in detection order. -/
def verifiedMatchesOf (env : PipelineEnv) (text : Str) : List VerifiedMatch :=
  (allDetectionsOf env text).enum.map
    (fun p => (matchAndVerify (env.matchEnvs p.1) p.2).1)

/-- The acceptance filter of step 4:
`m.confidence >= CONFIDENCE_AUTO_ANNOTATE && m.match`. -/
def vmFilter (m : VerifiedMatch) : Bool :=
  decide (CONFIDENCE_AUTO_ANNOTATE ≤ m.confidence) && m.matched.isSome

/-- Insertion into a descending-by-`start_index` list, after any earlier
element with an equal key (stability). -/
def insertByStartDesc (m : VerifiedMatch) :
    List VerifiedMatch → List VerifiedMatch
  | [] => [m]
  | h :: t =>
    if h.detected.start_index < m.detected.start_index then m :: h :: t
    else h :: insertByStartDesc m t

/-- The stable sort `(a, b) => b.detected.start_index - a.detected.start_index`
(descending advisory start offset). -/
def sortByStartDesc (l : List VerifiedMatch) : List VerifiedMatch :=
  l.foldl (fun acc m => insertByStartDesc m acc) []

/-- Mutable state of the annotation loop: the `annotations` array, the
working `annotatedText`, and the two per-kind stat counters. -/
structure AnnState where
  annotations : List Annotation
  annotatedText : Str
  quran_matches : Nat
  hadith_matches : Nat
deriving DecidableEq

/-- The `annotations.push(...)` record of lines 105–115: note that
`start_index`/`end_index` are copied from `verified.detected`. -/
def mkAnnotationRecord (tid : Str) (vm : VerifiedMatch) (m : MatchResult)
    (rid : Str) : Annotation :=
  { transcript_id := tid,
    type := m.type,
    reference_id := rid,
    original_text := vm.detected.original_text,
    corrected_text := vm.detected.corrected_text,
    confidence := vm.confidence,
    start_index := vm.detected.start_index,
    end_index := vm.detected.end_index }

/-- One iteration of the `for (const verified of sortedMatches)` loop:
record the annotation and bump the per-kind stat, then search the working
text case-insensitively for the literal text and, if found, splice the
marker over its first occurrence; if not found the text is left unchanged
(but the annotation has already been recorded). -/
def annotateStep (tid : Str) (st : AnnState) (verified : VerifiedMatch) :
    AnnState :=
  match verified.matched, verified.reference_id with
  | some m, some rid =>
    let st1 : AnnState :=
      { annotations := st.annotations ++ [mkAnnotationRecord tid verified m rid],
        annotatedText := st.annotatedText,
        quran_matches :=
          if m.type = RefKind.quran then st.quran_matches + 1 else st.quran_matches,
        hadith_matches :=
          if m.type = RefKind.quran then st.hadith_matches else st.hadith_matches + 1 }
    let originalText := verified.detected.original_text
    match firstIndexOf (jsToLower st1.annotatedText) (jsToLower originalText) with
    | some actualIndex =>
      { st1 with annotatedText :=
          st1.annotatedText.take actualIndex ++ createAnnotationMarkdown verified
            ++ st1.annotatedText.drop (actualIndex + originalText.length) }
    | none => st1
  | _, _ => st

/-- Step 4 of `processTranscript` (lines 97–139): filter to accepted
matches, sort descending by advisory start offset, and run the loop. -/
def annotatePhase (tid text : Str) (verifiedMatches : List VerifiedMatch) :
    AnnState :=
  (sortByStartDesc (verifiedMatches.filter vmFilter)).foldl
    (annotateStep tid) ⟨[], text, 0, 0⟩

/-- `stats.low_confidence_skipped` (lines 141–144). -/
def lowConfCount (vms : List VerifiedMatch) : Nat :=
  (vms.filter (fun m => decide (m.confidence < CONFIDENCE_AUTO_ANNOTATE))).length

/-- The whole success path of `processTranscript`. -/
def processTranscript (env : PipelineEnv) (transcriptId text : Str) :
    ProcessingResult :=
  let st := annotatePhase transcriptId text (verifiedMatchesOf env text)
  { annotated_text := st.annotatedText,
    annotations := st.annotations,
    stats :=
      { total_detected := (allDetectionsOf env text).length,
        quran_matches := st.quran_matches,
        hadith_matches := st.hadith_matches,
        low_confidence_skipped := lowConfCount (verifiedMatchesOf env text) } }

/-! ## Concrete fixtures used by counterexamples and witnesses -/

/-- A corpus verse 2:255. -/
def cexVerse : QuranVerse := ⟨1, 2, 255, [], [], []⟩

/-- A corpus verse 2:256. -/
def cexVerse2 : QuranVerse := ⟨2, 2, 256, [], [], []⟩

/-- A search result with similarity 0.9 (a clear winner). -/
def cexEntry : MatchResult := ⟨Reference.verse cexVerse, mkRat 9 10⟩

/-- A detection whose literal text is `world` with advisory offsets 0–5. -/
def cexDet : DetectedReference :=
  ⟨RefKind.quran, "world".toList, "World".toList, 0, 5, []⟩

/-- An adjudication response choosing index 0 with confidence 0.7. -/
def cexResp : VerifyResponse := ⟨some 0, mkRat 7 10, []⟩

/-- Oracle: one high-similarity (0.9) search result, adjudicator present. -/
def cexEnvClear : MatchEnv := ⟨some [cexEntry], some cexResp⟩

/-- Scenario D search results: similarities 0.52 and 0.50. -/
def cexE052 : MatchResult := ⟨Reference.verse cexVerse, mkRat 13 25⟩

/-- Second scenario D result (verse 2:256, similarity 0.50). -/
def cexE050 : MatchResult := ⟨Reference.verse cexVerse2, mkRat 1 2⟩

/-- Scenario D oracle: adjudicator picks index 1 with confidence 0.9. -/
def cexEnvTie : MatchEnv := ⟨some [cexE052, cexE050], some ⟨some 1, mkRat 9 10, []⟩⟩

/-- Oracle modelling `searchAll` throwing. -/
def cexEnvFail : MatchEnv := ⟨none, none⟩

/-- Oracle: search succeeds, adjudication model call fails. -/
def cexEnvNoVerify : MatchEnv := ⟨some [cexEntry], none⟩

/-- A one-candidate pipeline oracle over chunk 0. -/
def cexPipe : PipelineEnv :=
  ⟨fun i => if i = 0 then [cexDet] else [], fun _ => cexEnvClear⟩

/-- The transcript text used in concrete runs. -/
def cexText : Str := "hello world".toList

/-! ## C3: when the adjudication call runs -/

/-- C3, counterexample: with a single Reference Store result of similarity
0.9 (≥ the claimed 0.55 cutoff, hence a clear winner), `matchAndVerify`
still invokes the adjudication call, and the resulting confidence is the
adjudicator's 0.7, not the top similarity 0.9 — so clear winners are not
"accepted directly" and adjudication is not skipped. -/
theorem c3_counterexample :
    (matchAndVerify cexEnvClear cexDet).2 = true ∧
    cexEntry.similarity = mkRat 9 10 ∧
    ¬ (mkRat 9 10 < mkRat 11 20) ∧
    (matchAndVerify cexEnvClear cexDet).1.confidence ≠ cexEntry.similarity := by
  decide

/-- C3 (corrected): the second generative-model adjudication call is made
for every candidate whose Reference Store query returns at least one
result — unconditionally, with no high-confidence cutoff and no top-two
margin test; it is skipped only when the search throws or returns zero
results. -/
theorem adjudication_always_invoked (env : MatchEnv) (d : DetectedReference) :
    (matchAndVerify env d).2 = true ↔
      ∃ ms, env.searchResult = some ms ∧ ms ≠ [] := by
  rcases env with ⟨sr, vr⟩
  cases sr with
  | none => simp [matchAndVerify]
  | some ms =>
    by_cases he : ms.isEmpty
    · have hms : ms = [] := by
        cases ms
        · rfl
        · simp [List.isEmpty] at he
      subst hms
      simp [matchAndVerify]
    · have hne : ms ≠ [] := by
        intro h
        subst h
        simp at he
      constructor
      · intro _
        exact ⟨ms, rfl, hne⟩
      · intro _
        simp only [matchAndVerify, he, Bool.false_eq_true, if_false]
        cases vr with
        | none => simp
        | some r =>
          cases hri : r.match_index with
          | none => simp [hri]
          | some i =>
            cases hg : ms[i]? with
            | none => simp [hri, hg]
            | some b => simp [hri, hg]

/-! ## C4: where the confidence comes from -/

/-- C4, counterexample (the spec's own Scenario D): top two similarities
0.52 and 0.50, adjudicator returns index 1 with confidence 0.9.  The
resulting match is the second candidate, but its confidence is the
adjudicator's 0.9, not the original top similarity 0.52 (nor the chosen
entry's own 0.50). -/
theorem c4_counterexample :
    cexE052.similarity = mkRat 13 25 ∧
    cexE050.similarity = mkRat 1 2 ∧
    (mkRat 13 25 : ℚ) = 13 / 25 ∧
    (mkRat 1 2 : ℚ) = 1 / 2 ∧
    (13 : ℚ) / 25 < 11 / 20 ∧
    (13 : ℚ) / 25 - 1 / 2 < 1 / 20 ∧
    (matchAndVerify cexEnvTie cexDet).1.matched = some cexE050 ∧
    (matchAndVerify cexEnvTie cexDet).1.confidence = mkRat 9 10 ∧
    (mkRat 9 10 : ℚ) ≠ 13 / 25 := by
  refine ⟨by decide, by decide, ?_, ?_, by norm_num, by norm_num, by decide,
    by decide, ?_⟩
  · rw [Rat.mkRat_eq_divInt, Rat.divInt_eq_div]
    norm_num
  · rw [Rat.mkRat_eq_divInt, Rat.divInt_eq_div]
    norm_num
  · rw [Rat.mkRat_eq_divInt, Rat.divInt_eq_div]
    norm_num

/-- C4 (corrected): for every verified match with a non-null corpus entry,
the confidence is the adjudication call's returned confidence — the
adjudicator (which always runs when the Reference Store returns results)
chooses both which entry wins and the numeric confidence; the original
vector-similarity scores never become the confidence. -/
theorem confidence_is_adjudicators (env : MatchEnv) (d : DetectedReference)
    (ms : List MatchResult) (r : VerifyResponse) (i : Nat) (best : MatchResult)
    (hs : env.searchResult = some ms) (hv : env.verifyResult = some r)
    (hi : r.match_index = some i) (hg : ms[i]? = some best) :
    (matchAndVerify env d).1 =
      ⟨d, some best, r.confidence, some (createReferenceId best)⟩ := by
  have hne : ms.isEmpty = false := by
    cases ms
    · simp at hg
    · simp
  simp [matchAndVerify, hs, hv, hne, hi, hg]

/-- Witness for C4's theorem at the Scenario D fixture. -/
theorem confidence_is_adjudicators_witness :
    (matchAndVerify cexEnvTie cexDet).1 =
      ⟨cexDet, some cexE050, mkRat 9 10, some (createReferenceId cexE050)⟩ :=
  confidence_is_adjudicators cexEnvTie cexDet [cexE052, cexE050]
    ⟨some 1, mkRat 9 10, []⟩ 1 cexE050 rfl rfl rfl rfl

/-! ## C7: failures degrade to "no match", never abort the caller -/

/-- `enumFrom` indexing. -/
theorem getElem?_enumFrom {α : Type} :
    ∀ (n i : Nat) (l : List α),
      (List.enumFrom n l)[i]? = (l[i]?).map (fun a => (n + i, a))
  | _, _, [] => by simp
  | _, 0, _ :: _ => by simp
  | n, i + 1, a :: l => by
    simp only [List.enumFrom, List.getElem?_cons_succ]
    rw [getElem?_enumFrom (n + 1) i l]
    have h : n + 1 + i = n + (i + 1) := by omega
    rw [h]

/-- C7 (confirmed): every failure path of `matchAndVerify` — the search
(embedding service / Reference Store) throwing, or the adjudication model
call failing or returning unparsable output — produces a plain
`VerifiedMatch` with null corpus entry and confidence 0; `matchAndVerify`
is a total function, so no exception reaches `processTranscript`.  And
each candidate is verified independently: the `i`-th verified match is
exactly `matchAndVerify` of the `i`-th candidate with its own oracle, so
one failing candidate leaves every other candidate's result unchanged. -/
theorem matcher_never_aborts :
    (∀ (env : MatchEnv) (d : DetectedReference), env.searchResult = none →
        (matchAndVerify env d).1 = ⟨d, none, 0, none⟩) ∧
    (∀ (env : MatchEnv) (d : DetectedReference) (ms : List MatchResult),
        env.searchResult = some ms → env.verifyResult = none →
        (matchAndVerify env d).1.matched = none ∧
        (matchAndVerify env d).1.confidence = 0) ∧
    (∀ (env : PipelineEnv) (text : Str) (i : Nat) (d : DetectedReference),
        (allDetectionsOf env text)[i]? = some d →
        (verifiedMatchesOf env text)[i]? =
          some (matchAndVerify (env.matchEnvs i) d).1) := by
  refine ⟨?_, ?_, ?_⟩
  · intro env d h
    simp [matchAndVerify, h]
  · intro env d ms hs hv
    cases ms with
    | nil => simp [matchAndVerify, hs, hv, List.isEmpty]
    | cons a t => simp [matchAndVerify, hs, hv, List.isEmpty]
  · intro env text i d h
    unfold verifiedMatchesOf List.enum
    rw [List.getElem?_map, getElem?_enumFrom 0 i _, h]
    simp

/-- Witness for C7's theorem: a thrown search, a failed adjudication call,
and a concrete one-candidate run. -/
theorem matcher_never_aborts_witness :
    (matchAndVerify cexEnvFail cexDet).1 = ⟨cexDet, none, 0, none⟩ ∧
    ((matchAndVerify cexEnvNoVerify cexDet).1.matched = none ∧
      (matchAndVerify cexEnvNoVerify cexDet).1.confidence = 0) ∧
    (verifiedMatchesOf cexPipe cexText)[0]? =
      some (matchAndVerify (cexPipe.matchEnvs 0) cexDet).1 :=
  ⟨matcher_never_aborts.1 cexEnvFail cexDet rfl,
   matcher_never_aborts.2.1 cexEnvNoVerify cexDet [cexEntry] rfl rfl,
   matcher_never_aborts.2.2 cexPipe cexText 0 cexDet (by decide)⟩

/-! ## Provenance of annotation records (shared lemmas) -/

/-- Membership through `insertByStartDesc`. -/
theorem mem_insertByStartDesc {x m : VerifiedMatch} :
    ∀ l : List VerifiedMatch, x ∈ insertByStartDesc m l ↔ x = m ∨ x ∈ l
  | [] => by simp [insertByStartDesc]
  | h :: t => by
    simp only [insertByStartDesc]
    split
    · simp [List.mem_cons]
    · rw [List.mem_cons, mem_insertByStartDesc t, List.mem_cons]
      tauto

/-- Membership through the sort's fold. -/
theorem mem_sortFold :
    ∀ (l acc : List VerifiedMatch) (x : VerifiedMatch),
      x ∈ l.foldl (fun acc m => insertByStartDesc m acc) acc ↔ x ∈ acc ∨ x ∈ l
  | [], _, _ => by simp
  | m :: t, acc, x => by
    simp only [List.foldl_cons]
    rw [mem_sortFold t _ x, mem_insertByStartDesc acc]
    simp only [List.mem_cons]
    tauto

/-- The placement sort permutes its input (membership form). -/
theorem mem_sortByStartDesc {x : VerifiedMatch} {l : List VerifiedMatch} :
    x ∈ sortByStartDesc l ↔ x ∈ l := by
  unfold sortByStartDesc
  rw [mem_sortFold]
  simp

/-- Every annotation present after one loop iteration either was already
present or is the record of this iteration's verified match. -/
theorem annStep_mem (tid : Str) (st : AnnState) (vm : VerifiedMatch)
    {a : Annotation} (h : a ∈ (annotateStep tid st vm).annotations) :
    a ∈ st.annotations ∨
      ∃ m rid, vm.matched = some m ∧ vm.reference_id = some rid ∧
        a = mkAnnotationRecord tid vm m rid := by
  unfold annotateStep at h
  cases hm : vm.matched with
  | none =>
    simp only [hm] at h
    exact Or.inl h
  | some m =>
    cases hr : vm.reference_id with
    | none =>
      simp only [hm, hr] at h
      exact Or.inl h
    | some rid =>
      simp only [hm, hr] at h
      cases hf : firstIndexOf (jsToLower st.annotatedText)
          (jsToLower vm.detected.original_text) with
      | none =>
        simp only [hf] at h
        rcases List.mem_append.mp h with h0 | h1
        · exact Or.inl h0
        · exact Or.inr ⟨m, rid, rfl, rfl, List.mem_singleton.mp h1⟩
      | some idx =>
        simp only [hf] at h
        rcases List.mem_append.mp h with h0 | h1
        · exact Or.inl h0
        · exact Or.inr ⟨m, rid, rfl, rfl, List.mem_singleton.mp h1⟩

/-- Provenance through the whole loop. -/
theorem annFold_mem (tid : Str) (l : List VerifiedMatch) :
    ∀ (st : AnnState) {a : Annotation},
      a ∈ (l.foldl (annotateStep tid) st).annotations →
      a ∈ st.annotations ∨
        ∃ vm ∈ l, ∃ m rid, vm.matched = some m ∧ vm.reference_id = some rid ∧
          a = mkAnnotationRecord tid vm m rid := by
  induction l with
  | nil =>
    intro st a h
    exact Or.inl h
  | cons vm t ih =>
    intro st a h
    simp only [List.foldl_cons] at h
    rcases ih (annotateStep tid st vm) h with h0 | ⟨vm', hvm', rest⟩
    · rcases annStep_mem tid st vm h0 with h1 | ⟨m, rid, hs⟩
      · exact Or.inl h1
      · exact Or.inr ⟨vm, List.mem_cons_self vm t, m, rid, hs⟩
    · exact Or.inr ⟨vm', List.mem_cons_of_mem vm hvm', rest⟩

/-- Provenance for the whole annotation phase: every emitted annotation
record comes from an accepted (filter-passing) verified match and copies
that match's fields — in particular the Detector's advisory offsets. -/
theorem annotatePhase_mem {tid text : Str} {vms : List VerifiedMatch}
    {a : Annotation} (h : a ∈ (annotatePhase tid text vms).annotations) :
    ∃ vm ∈ vms, vmFilter vm = true ∧
      ∃ m rid, vm.matched = some m ∧ vm.reference_id = some rid ∧
        a = mkAnnotationRecord tid vm m rid := by
  unfold annotatePhase at h
  rcases annFold_mem tid _ _ h with h0 | ⟨vm, hvm, rest⟩
  · simp at h0
  · rcases List.mem_filter.mp (mem_sortByStartDesc.mp hvm) with ⟨hmem, hfil⟩
    exact ⟨vm, hmem, hfil, rest⟩

/-! ## C1: which offsets the Annotation records carry -/

/-- An accepted verified match for `world` whose advisory offsets (0, 5)
disagree with the true position of `world` in `hello world`. -/
def cexVmA : VerifiedMatch :=
  ⟨cexDet, some cexEntry, mkRat 4 5, some (createReferenceId cexEntry)⟩

/-- The transcript id used in concrete runs. -/
def cexTid : Str := "t1".toList

/-- C1, counterexample: the marker is placed at index 6 of the rewritten
document (`hello [[quran:2:255|world]]`), yet the recorded annotation
carries the Detector's advisory offsets 0–5, which point at `hello ` in
the final document, not at the placed span. -/
theorem c1_counterexample :
    (annotatePhase cexTid cexText [cexVmA]).annotatedText =
      "hello [[quran:2:255|world]]".toList ∧
    (annotatePhase cexTid cexText [cexVmA]).annotations =
      [mkAnnotationRecord cexTid cexVmA cexEntry (createReferenceId cexEntry)] ∧
    (mkAnnotationRecord cexTid cexVmA cexEntry
        (createReferenceId cexEntry)).start_index = 0 ∧
    firstIndexOf "hello [[quran:2:255|world]]".toList
      (mkMarker RefKind.quran (createReferenceId cexEntry)
        cexDet.original_text) = some 6 ∧
    ((0 : ℤ) ≠ 6) := by
  decide

/-- C1 (corrected): every Annotation the pipeline records carries the
`start_index`/`end_index` copied from the Detector's (chunk-rebased,
advisory) offsets of its verified match — not offsets recomputed from the
final placement location in the rewritten document. -/
theorem annotation_offsets_from_detector (tid text : Str)
    (vms : List VerifiedMatch) (a : Annotation)
    (h : a ∈ (annotatePhase tid text vms).annotations) :
    ∃ vm ∈ vms, vm.matched.isSome = true ∧
      a.start_index = vm.detected.start_index ∧
      a.end_index = vm.detected.end_index := by
  rcases annotatePhase_mem h with ⟨vm, hmem, _, m, rid, hm, _, ha⟩
  exact ⟨vm, hmem, by simp [hm], by rw [ha]; rfl, by rw [ha]; rfl⟩

/-- Witness for C1's theorem at the concrete run. -/
theorem annotation_offsets_from_detector_witness :
    ∃ vm ∈ [cexVmA], vm.matched.isSome = true ∧
      (mkAnnotationRecord cexTid cexVmA cexEntry
          (createReferenceId cexEntry)).start_index = vm.detected.start_index ∧
      (mkAnnotationRecord cexTid cexVmA cexEntry
          (createReferenceId cexEntry)).end_index = vm.detected.end_index :=
  annotation_offsets_from_detector cexTid cexText [cexVmA]
    (mkAnnotationRecord cexTid cexVmA cexEntry (createReferenceId cexEntry))
    (by decide)

/-! ## C2: a match whose literal text is not found -/

/-- A detection whose literal text `xyz` does not occur in the document. -/
def cexDetMiss : DetectedReference :=
  ⟨RefKind.quran, "xyz".toList, "Xyz".toList, 0, 3, []⟩

/-- An accepted verified match for the unfindable literal. -/
def cexVmMiss : VerifiedMatch :=
  ⟨cexDetMiss, some cexEntry, mkRat 4 5, some (createReferenceId cexEntry)⟩

/-- C2, counterexample: the literal `xyz` is not found in `hello`, so the
document is left unchanged — but the Annotation record has already been
pushed (and is therefore persisted) and the per-kind stat incremented,
contradicting "no persisted Annotation record". -/
theorem c2_counterexample :
    firstIndexOf (jsToLower "hello".toList)
      (jsToLower cexDetMiss.original_text) = none ∧
    (annotatePhase cexTid "hello".toList [cexVmMiss]).annotatedText =
      "hello".toList ∧
    (annotatePhase cexTid "hello".toList [cexVmMiss]).annotations =
      [mkAnnotationRecord cexTid cexVmMiss cexEntry (createReferenceId cexEntry)] ∧
    (annotatePhase cexTid "hello".toList [cexVmMiss]).quran_matches = 1 := by
  decide

/-- C2 (corrected): when the case-insensitive search fails to find the
accepted match's literal text, the working document is left unchanged, but
the match still produces an Annotation record (appended to the list that
is later bulk-persisted) and still increments the per-kind statistic. -/
theorem skipped_match_still_recorded (tid : Str) (st : AnnState)
    (vm : VerifiedMatch) (m : MatchResult) (rid : Str)
    (hm : vm.matched = some m) (hr : vm.reference_id = some rid)
    (hfind : firstIndexOf (jsToLower st.annotatedText)
      (jsToLower vm.detected.original_text) = none) :
    annotateStep tid st vm =
      ⟨st.annotations ++ [mkAnnotationRecord tid vm m rid],
       st.annotatedText,
       if m.type = RefKind.quran then st.quran_matches + 1 else st.quran_matches,
       if m.type = RefKind.quran then st.hadith_matches else st.hadith_matches + 1⟩ := by
  unfold annotateStep
  simp only [hm, hr, hfind]

/-- Witness for C2's theorem at the concrete miss. -/
theorem skipped_match_still_recorded_witness :
    annotateStep cexTid ⟨[], "hello".toList, 0, 0⟩ cexVmMiss =
      ⟨[mkAnnotationRecord cexTid cexVmMiss cexEntry (createReferenceId cexEntry)],
       "hello".toList, 1, 0⟩ := by
  rw [skipped_match_still_recorded cexTid ⟨[], "hello".toList, 0, 0⟩ cexVmMiss
    cexEntry (createReferenceId cexEntry) rfl rfl (by decide)]
  decide

/-! ## C5: the confidence gate -/

/-- C5 (confirmed): every annotation a pipeline run emits (the list that is
returned and bulk-persisted) has confidence at least
`CONFIDENCE_AUTO_ANNOTATE` (0.5) and stems from a verified match with a
non-null corpus entry. -/
theorem confidence_gate (env : PipelineEnv) (tid text : Str)
    (a : Annotation)
    (h : a ∈ (processTranscript env tid text).annotations) :
    CONFIDENCE_AUTO_ANNOTATE ≤ a.confidence ∧
      ∃ vm ∈ verifiedMatchesOf env text, vm.matched.isSome = true ∧
        a.confidence = vm.confidence := by
  have h' : a ∈ (annotatePhase tid text (verifiedMatchesOf env text)).annotations := h
  rcases annotatePhase_mem h' with ⟨vm, hmem, hfil, m, rid, hm, _, ha⟩
  have hfil' : CONFIDENCE_AUTO_ANNOTATE ≤ vm.confidence ∧
      vm.matched.isSome = true := by
    simpa [vmFilter] using hfil
  rcases hfil' with ⟨hc, hsome⟩
  have hac : a.confidence = vm.confidence := by
    rw [ha]
    rfl
  exact ⟨hac ▸ hc, vm, hmem, hsome, hac⟩

/-- The annotation emitted by the concrete run of `cexPipe`. -/
def cexAnnClear : Annotation :=
  ⟨cexTid, RefKind.quran, "2:255".toList, "world".toList, "World".toList,
   mkRat 7 10, 0, 5⟩

/-- Witness for C5's theorem at the concrete run. -/
theorem confidence_gate_witness :
    CONFIDENCE_AUTO_ANNOTATE ≤ cexAnnClear.confidence ∧
      ∃ vm ∈ verifiedMatchesOf cexPipe cexText, vm.matched.isSome = true ∧
        cexAnnClear.confidence = vm.confidence :=
  confidence_gate cexPipe cexTid cexText cexAnnClear (by decide)

/-! ## C10: the low-confidence statistic and null-match behaviour -/

/-- C10 (confirmed): `low_confidence_skipped` is exactly the number of
verified matches with confidence strictly below 0.5; and a verified match
with confidence ≥ 0.5 but a null corpus entry is invisible to the
annotation phase — removing it changes neither the emitted annotations,
nor the rewritten text, nor the per-kind counters, nor
`low_confidence_skipped`. -/
theorem low_confidence_stat :
    (∀ (env : PipelineEnv) (tid text : Str),
        (processTranscript env tid text).stats.low_confidence_skipped =
          ((verifiedMatchesOf env text).filter
            (fun m => decide (m.confidence < CONFIDENCE_AUTO_ANNOTATE))).length) ∧
    (∀ (tid text : Str) (pre post : List VerifiedMatch) (e : VerifiedMatch),
        CONFIDENCE_AUTO_ANNOTATE ≤ e.confidence → e.matched = none →
        annotatePhase tid text (pre ++ e :: post) =
          annotatePhase tid text (pre ++ post) ∧
        lowConfCount (pre ++ e :: post) = lowConfCount (pre ++ post)) := by
  constructor
  · intro env tid text
    rfl
  · intro tid text pre post e hc hm
    constructor
    · unfold annotatePhase
      have hfe : vmFilter e = false := by
        simp [vmFilter, hm]
      simp [List.filter_append, List.filter_cons, hfe]
    · unfold lowConfCount
      have hlt : (decide (e.confidence < CONFIDENCE_AUTO_ANNOTATE)) = false := by
        simp [not_lt.mpr hc]
      simp [List.filter_append, List.filter_cons, hlt]

/-- A high-confidence verified match with a null corpus entry. -/
def cexVmNull : VerifiedMatch := ⟨cexDet, none, mkRat 3 5, none⟩

/-- Witness for C10's theorem at a concrete list. -/
theorem low_confidence_stat_witness :
    annotatePhase cexTid cexText ([] ++ cexVmNull :: [cexVmA]) =
      annotatePhase cexTid cexText ([] ++ [cexVmA]) ∧
    lowConfCount ([] ++ cexVmNull :: [cexVmA]) = lowConfCount ([] ++ [cexVmA]) :=
  low_confidence_stat.2 cexTid cexText [] [cexVmA] cexVmNull (by decide) rfl

/-! ## C9: `normalizeArabic` on non-Arabic input -/

/-- A filter keeping everything is the identity. -/
theorem filter_eq_self_of (p : Char → Bool) :
    ∀ s : Str, (∀ c ∈ s, p c = true) → s.filter p = s
  | [], _ => rfl
  | c :: t, h => by
    have hc := h c (List.mem_cons_self c t)
    simp only [List.filter_cons, hc, if_true]
    rw [filter_eq_self_of p t (fun x hx => h x (List.mem_cons_of_mem c hx))]

/-- A map fixing every element is the identity. -/
theorem map_eq_self_of (f : Char → Char) :
    ∀ s : Str, (∀ c ∈ s, f c = c) → s.map f = s
  | [], _ => rfl
  | c :: t, h => by
    simp only [List.map_cons, h c (List.mem_cons_self c t)]
    rw [map_eq_self_of f t (fun x hx => h x (List.mem_cons_of_mem c hx))]

/-- Characters outside the Arabic block `[؀-ۿ]` are untouched by every
normalization rule. -/
theorem nonArabic_fixed (c : Char)
    (h : (0x600 ≤ c.toNat && c.toNat ≤ 0x6FF) = false) :
    isTashkeel c = false ∧ normAlif c = c ∧ normTaMarbuta c = c ∧
      normAlifMaksura c = c ∧ normWawHamza c = c ∧ normYaHamza c = c := by
  have h' : ¬ (0x600 ≤ c.toNat ∧ c.toNat ≤ 0x6FF) := by simpa using h
  have e1 : ((0x64B ≤ c.toNat && c.toNat ≤ 0x65F) || c.toNat = 0x670) = false := by
    simp only [Bool.or_eq_false_iff, Bool.and_eq_false_iff]
    constructor
    · simp only [decide_eq_false_iff_not]
      omega
    · simp only [decide_eq_false_iff_not]
      omega
  have e2 : (c.toNat = 0x622 || c.toNat = 0x623 || c.toNat = 0x625) = false := by
    simp only [Bool.or_eq_false_iff, decide_eq_false_iff_not]
    omega
  have e3 : (c.toNat = 0x629) = False := by
    simp only [eq_iff_iff, iff_false]
    omega
  have e4 : (c.toNat = 0x649) = False := by
    simp only [eq_iff_iff, iff_false]
    omega
  have e5 : (c.toNat = 0x624) = False := by
    simp only [eq_iff_iff, iff_false]
    omega
  have e6 : (c.toNat = 0x626) = False := by
    simp only [eq_iff_iff, iff_false]
    omega
  refine ⟨?_, ?_, ?_, ?_, ?_, ?_⟩
  · simp [isTashkeel, e1]
  · simp [normAlif, e2]
  · simp [normTaMarbuta, e3]
  · simp [normAlifMaksura, e4]
  · simp [normWawHamza, e5]
  · simp [normYaHamza, e6]

/-- C9, counterexample: `a  b` (two spaces) contains no Arabic character,
yet `normalizeArabic` collapses its whitespace, so the function is not the
identity on all non-Arabic input. -/
theorem c9_counterexample :
    containsArabic "a  b".toList = false ∧
    normalizeArabic "a  b".toList = "a b".toList ∧
    "a b".toList ≠ "a  b".toList := by
  decide

/-- C9 (corrected): `normalizeArabic` is a deterministic, total function
(it is a Lean function), and it is the identity on non-Arabic input whose
whitespace is already in collapsed, trimmed form — the unconditional
whitespace-collapse and trim passes make it strictly smaller than the
identity on other non-Arabic strings. -/
theorem normalizeArabic_id_on_plain (s : Str)
    (hA : containsArabic s = false) (hW : collapseWs s = s)
    (hT : jsTrim s = s) : normalizeArabic s = s := by
  have hall : ∀ c ∈ s, (0x600 ≤ c.toNat && c.toNat ≤ 0x6FF) = false := by
    intro c hc
    rcases hb : (0x600 ≤ c.toNat && c.toNat ≤ 0x6FF) with _ | _
    · rfl
    · exfalso
      have h2 : s.any (fun c => 0x600 ≤ c.toNat && c.toNat ≤ 0x6FF) = true :=
        List.any_eq_true.mpr ⟨c, hc, hb⟩
      have h3 : s.any (fun c => 0x600 ≤ c.toNat && c.toNat ≤ 0x6FF) = false := hA
      rw [h2] at h3
      exact Bool.true_eq_false.mp h3
  have h1 : removeDiacritics s = s :=
    filter_eq_self_of _ s (fun c hc => by
      have := (nonArabic_fixed c (hall c hc)).1
      simp [this])
  have m1 : s.map normAlif = s :=
    map_eq_self_of _ s (fun c hc => (nonArabic_fixed c (hall c hc)).2.1)
  have m2 : s.map normTaMarbuta = s :=
    map_eq_self_of _ s (fun c hc => (nonArabic_fixed c (hall c hc)).2.2.1)
  have m3 : s.map normAlifMaksura = s :=
    map_eq_self_of _ s (fun c hc => (nonArabic_fixed c (hall c hc)).2.2.2.1)
  have m4 : s.map normWawHamza = s :=
    map_eq_self_of _ s (fun c hc => (nonArabic_fixed c (hall c hc)).2.2.2.2.1)
  have m5 : s.map normYaHamza = s :=
    map_eq_self_of _ s (fun c hc => (nonArabic_fixed c (hall c hc)).2.2.2.2.2)
  unfold normalizeArabic
  rw [h1, m1, m2, m3, m4, m5, hW, hT]

/-- Witness for C9's theorem on a plain ASCII string. -/
theorem normalizeArabic_id_on_plain_witness :
    normalizeArabic "abc".toList = "abc".toList :=
  normalizeArabic_id_on_plain ("abc".toList) (by decide) (by decide) (by decide)

/-! ## C8: losslessness of the marker round-trip -/

/-- A list is a `isPrefixOf` of itself followed by anything. -/
theorem isPrefixOf_append_self : ∀ p r : Str, p.isPrefixOf (p ++ r) = true
  | [], _ => by simp [List.isPrefixOf]
  | c :: t, r => by
    simp only [List.cons_append, List.isPrefixOf, beq_self_eq_true, Bool.true_and]
    exact isPrefixOf_append_self t r

/-- Stripping a literal prefix from itself followed by anything. -/
theorem dropPrefixOpt_append (p r : Str) : dropPrefixOpt p (p ++ r) = some r := by
  unfold dropPrefixOpt
  rw [isPrefixOf_append_self]
  simp [List.drop_left]

/-- `takeWhile`/`dropWhile` on `l ++ x :: r` when `p` holds on all of `l`
and fails at `x`. -/
theorem takeWhile_clean_append (p : Char → Bool) :
    ∀ (l : Str) (x : Char) (r : Str), (∀ c ∈ l, p c = true) → p x = false →
      ((l ++ x :: r).takeWhile p = l ∧ (l ++ x :: r).dropWhile p = x :: r)
  | [], x, r, _, hx => by
    simp [List.takeWhile_cons, List.dropWhile_cons, hx]
  | c :: t, x, r, h, hx => by
    have hc := h c (List.mem_cons_self c t)
    have ih := takeWhile_clean_append p t x r
      (fun y hy => h y (List.mem_cons_of_mem c hy)) hx
    simp only [List.cons_append, List.takeWhile_cons, List.dropWhile_cons, hc,
      if_true]
    exact ⟨by rw [ih.1], ih.2⟩

/-- The anchored regex attempt succeeds on a well-formed marker and
recovers exactly the embedded reference key and label. -/
theorem matchRefAt_marker (k : RefKind) (rid label : Str)
    (hrn : rid ≠ []) (hln : label ≠ [])
    (hrid : ∀ c ∈ rid, c ≠ '|') (hlab : ∀ c ∈ label, c ≠ ']') :
    matchRefAt (kindTag k) (mkMarker k rid label) = some (rid, label) := by
  have hshape : mkMarker k rid label =
      openTagOf (kindTag k) ++ (rid ++ '|' :: (label ++ [']', ']'])) := by
    unfold mkMarker openTagOf
    simp [List.append_assoc]
  rw [hshape]
  unfold matchRefAt
  rw [dropPrefixOpt_append]
  have h1 := takeWhile_clean_append (fun c => decide ¬(c = '|')) rid '|'
    (label ++ [']', ']'])
    (fun c hc => by simp [hrid c hc]) (by simp)
  have h2 := takeWhile_clean_append (fun c => decide ¬(c = ']')) label ']'
    ([']'])
    (fun c hc => by simp [hlab c hc]) (by simp)
  simp only [h1.1, h1.2, h2.1, h2.2]
  simp [hrn, hln]

/-- A successful anchored attempt makes the unanchored search succeed at
position zero. -/
theorem searchPattern_cons_some (tag : Str) (c : Char) (t : Str)
    (r : Str × Str) (h : matchRefAt tag (c :: t) = some r) :
    searchPattern tag (c :: t) = some r := by
  conv_lhs => unfold searchPattern
  rw [h]

/-- A failing anchored attempt moves the unanchored search one position
to the right. -/
theorem searchPattern_cons_none (tag : Str) (c : Char) (t : Str)
    (h : matchRefAt tag (c :: t) = none) :
    searchPattern tag (c :: t) = searchPattern tag t := by
  conv_lhs => unfold searchPattern
  rw [h]

/-- The anchored attempt fails whenever the literal `[[<tag>:` head is not
a prefix. -/
theorem matchRefAt_none (tag s : Str)
    (h : (openTagOf tag).isPrefixOf s = false) : matchRefAt tag s = none := by
  unfold matchRefAt dropPrefixOpt
  rw [h]
  rfl

/-- On a string containing no `[` at all, the marker search fails. -/
theorem searchPattern_none_lbFree (tag : Str) :
    ∀ s : Str, (∀ c ∈ s, c ≠ '[') → searchPattern tag s = none
  | [], _ => rfl
  | c :: t, h => by
    have hc : c ≠ '[' := h c (List.mem_cons_self c t)
    have hb : ('[' == c) = false := by
      rw [beq_eq_false_iff_ne]
      exact Ne.symm hc
    have hpre : (openTagOf tag).isPrefixOf (c :: t) = false := by
      unfold openTagOf
      simp [List.isPrefixOf, hb]
    rw [searchPattern_cons_none tag c t (matchRefAt_none tag (c :: t) hpre)]
    exact searchPattern_none_lbFree tag t
      (fun x hx => h x (List.mem_cons_of_mem c hx))

/-- The search succeeds on a whole well-formed marker. -/
theorem searchPattern_marker (k : RefKind) (rid label : Str)
    (hrn : rid ≠ []) (hln : label ≠ [])
    (hrid : ∀ c ∈ rid, c ≠ '|') (hlab : ∀ c ∈ label, c ≠ ']') :
    searchPattern (kindTag k) (mkMarker k rid label) = some (rid, label) :=
  searchPattern_cons_some (kindTag k) '[' _
    (rid, label) (matchRefAt_marker k rid label hrn hln hrid hlab)

/-- The `quran` search finds nothing in a `hadith` marker whose key and
label are free of `[`. -/
theorem searchPattern_quran_none_on_hadith (rid label : Str)
    (h1 : ∀ c ∈ rid, c ≠ '[') (h2 : ∀ c ∈ label, c ≠ '[') :
    searchPattern (kindTag RefKind.quran)
      (mkMarker RefKind.hadith rid label) = none := by
  have hXfree : ∀ c ∈ (kindTag RefKind.hadith ++ ':' :: (rid ++ '|' ::
      (label ++ [']', ']']))), c ≠ '[' := by
    intro c hc heq
    subst heq
    rcases List.mem_append.mp hc with h6 | hrest
    · exact absurd h6 (by decide)
    · rcases List.mem_cons.mp hrest with hcolon | hrest2
      · exact absurd hcolon (by decide)
      · rcases List.mem_append.mp hrest2 with hr | hrest3
        · exact h1 '[' hr rfl
        · rcases List.mem_cons.mp hrest3 with hpipe | hrest4
          · exact absurd hpipe (by decide)
          · rcases List.mem_append.mp hrest4 with hl | hbr
            · exact h2 '[' hl rfl
            · exact absurd hbr (by decide)
  have hq1 : ('q' == 'h') = false := by decide
  have hq2 : ('[' == 'h') = false := by decide
  have hpre1 : (openTagOf (kindTag RefKind.quran)).isPrefixOf
      (mkMarker RefKind.hadith rid label) = false := by
    unfold openTagOf mkMarker kindTag
    simp [List.isPrefixOf, hq1]
  have hpre2 : (openTagOf (kindTag RefKind.quran)).isPrefixOf
      ('[' :: (kindTag RefKind.hadith ++ ':' :: (rid ++ '|' ::
        (label ++ [']', ']'])))) = false := by
    unfold openTagOf kindTag
    simp [List.isPrefixOf, hq2]
  have step1 := searchPattern_cons_none (kindTag RefKind.quran) '['
    ('[' :: (kindTag RefKind.hadith ++ ':' :: (rid ++ '|' ::
      (label ++ [']', ']']))))
    (matchRefAt_none _ _ hpre1)
  have step2 := searchPattern_cons_none (kindTag RefKind.quran) '['
    (kindTag RefKind.hadith ++ ':' :: (rid ++ '|' :: (label ++ [']', ']'])))
    (matchRefAt_none _ _ hpre2)
  have step3 := searchPattern_none_lbFree (kindTag RefKind.quran) _ hXfree
  have hmk : mkMarker RefKind.hadith rid label =
      '[' :: ('[' :: (kindTag RefKind.hadith ++ ':' :: (rid ++ '|' ::
        (label ++ [']', ']'])))) := by
    unfold mkMarker
    simp [List.cons_append, List.append_assoc]
  rw [hmk, step1, step2, step3]

/-- Detector for the literal sequence `]]` inside a string. -/
def hasDoubleRBracket : Str → Bool
  | ']' :: ']' :: _ => true
  | _ :: rest => hasDoubleRBracket rest
  | [] => false

/-- C8, counterexample: two labels that do not contain the literal `]]`
but still break the round-trip.  A label with a single `]` (`a]b`) makes
the marker unparsable (the regex label group excludes every `]`), and a
bracket-containing label (`see [[quran:1|x`) makes a `hadith` marker parse
as a bogus `quran` reference. -/
theorem c8_counterexample :
    hasDoubleRBracket "a]b".toList = false ∧
    parseAnnotation (mkMarker RefKind.quran "2:255".toList "a]b".toList) =
      none ∧
    hasDoubleRBracket "see [[quran:1|x".toList = false ∧
    parseAnnotation
        (mkMarker RefKind.hadith "bukhari:1:1".toList "see [[quran:1|x".toList) =
      some ⟨RefKind.quran, "1".toList, "x".toList⟩ := by
  decide

/-- C8 (corrected): the marker round-trip is lossless for every kind,
reference key and label such that the key is nonempty and free of `|`,
`]`, `[` and the label is nonempty and free of `]` and `[` — parsing the
constructed marker recovers exactly the embedded kind, key and label.
(Labels merely avoiding the two-character sequence `]]` are not enough:
see the counterexample.) -/
theorem marker_roundtrip (k : RefKind) (rid label : Str)
    (hrn : rid ≠ []) (hln : label ≠ [])
    (hrid : ∀ c ∈ rid, c ≠ '|' ∧ c ≠ ']' ∧ c ≠ '[')
    (hlab : ∀ c ∈ label, c ≠ ']' ∧ c ≠ '[') :
    parseAnnotation (mkMarker k rid label) = some ⟨k, rid, label⟩ := by
  cases k with
  | quran =>
    unfold parseAnnotation
    rw [searchPattern_marker RefKind.quran rid label hrn hln
      (fun c hc => (hrid c hc).1) (fun c hc => (hlab c hc).1)]
  | hadith =>
    unfold parseAnnotation
    rw [searchPattern_quran_none_on_hadith rid label
      (fun c hc => (hrid c hc).2.2) (fun c hc => (hlab c hc).2)]
    rw [searchPattern_marker RefKind.hadith rid label hrn hln
      (fun c hc => (hrid c hc).1) (fun c hc => (hlab c hc).1)]

/-- Witness for C8's theorem at a concrete verse marker. -/
theorem marker_roundtrip_witness :
    parseAnnotation (mkMarker RefKind.quran "2:255".toList "abc".toList) =
      some ⟨RefKind.quran, "2:255".toList, "abc".toList⟩ :=
  marker_roundtrip RefKind.quran ("2:255".toList) ("abc".toList)
    (by decide) (by decide) (by decide) (by decide)

/-! ## C6: chunk reconstruction -/

/-- The paragraph separator the chunker re-inserts. -/
def nlnl : Str := ['\n', '\n']

/-- Join a list of strings with a separator (the spec's "concatenating
chunks, re-inserting the paragraph separator"). -/
def joinWithSep (sep : Str) : List Str → Str
  | [] => []
  | [p] => p
  | p :: q :: rest => p ++ sep ++ joinWithSep sep (q :: rest)

/-- Whether a string contains two adjacent newlines. -/
def hasDoubleNl : Str → Bool
  | [] => false
  | c :: rest =>
    (decide (c = '\n') && (match rest.head? with
      | some d => decide (d = '\n')
      | none => false)) || hasDoubleNl rest

/-- A paragraph in canonical form for the reconstruction result: within
the size limit, not starting or ending in whitespace (hence nonempty),
and containing no blank line. -/
def paraOk (maxChunkSize : Nat) (p : Str) : Bool :=
  decide (p.length ≤ maxChunkSize) &&
  (match p.head? with
    | some c => !isJsSpace c
    | none => false) &&
  (match p.getLast? with
    | some c => !isJsSpace c
    | none => false) &&
  !hasDoubleNl p

/-- Unpacking `paraOk`. -/
theorem paraOk_strip {maxChunkSize : Nat} {p : Str}
    (h : paraOk maxChunkSize p = true) :
    p ≠ [] ∧ p.length ≤ maxChunkSize ∧ hasDoubleNl p = false ∧
      (∀ c, p.head? = some c → isJsSpace c = false) ∧
      (∀ c, p.getLast? = some c → isJsSpace c = false) ∧
      p.head? ≠ some '\n' ∧ p.getLast? ≠ some '\n' := by
  unfold paraOk at h
  rcases Bool.and_eq_true_iff.mp h with ⟨h123, h4⟩
  rcases Bool.and_eq_true_iff.mp h123 with ⟨h12, h3⟩
  rcases Bool.and_eq_true_iff.mp h12 with ⟨h1, h2⟩
  have hne : p ≠ [] := by
    intro he
    subst he
    simp at h2
  have hlen : p.length ≤ maxChunkSize := of_decide_eq_true h1
  have hdn : hasDoubleNl p = false := by
    cases hv : hasDoubleNl p
    · rfl
    · rw [hv] at h4
      simp at h4
  have hhead : ∀ c, p.head? = some c → isJsSpace c = false := by
    intro c hc
    rw [hc] at h2
    simpa using h2
  have hlast : ∀ c, p.getLast? = some c → isJsSpace c = false := by
    intro c hc
    rw [hc] at h3
    simpa using h3
  refine ⟨hne, hlen, hdn, hhead, hlast, ?_, ?_⟩
  · intro hc
    have := hhead '\n' hc
    simp [isJsSpace] at this
  · intro hc
    have := hlast '\n' hc
    simp [isJsSpace] at this

/-- `joinWithSep` distributes over an append of nonempty lists. -/
theorem join_append_ne (sep : Str) :
    ∀ (g l : List Str), g ≠ [] → l ≠ [] →
      joinWithSep sep (g ++ l) = joinWithSep sep g ++ sep ++ joinWithSep sep l
  | [], _, hg, _ => absurd rfl hg
  | [q], l, _, hl => by
    cases l with
    | nil => exact absurd rfl hl
    | cons x t => simp [joinWithSep]
  | q :: r :: t, l, _, hl => by
    have ih := join_append_ne sep (r :: t) l (by simp) hl
    have hx : (r :: t) ++ l = r :: (t ++ l) := by simp
    calc joinWithSep sep ((q :: r :: t) ++ l)
        = joinWithSep sep (q :: r :: (t ++ l)) := by simp
      _ = q ++ sep ++ joinWithSep sep (r :: (t ++ l)) := rfl
      _ = q ++ sep ++ joinWithSep sep ((r :: t) ++ l) := by rw [← hx]
      _ = q ++ sep ++ (joinWithSep sep (r :: t) ++ sep ++ joinWithSep sep l) := by
          rw [ih]
      _ = (q ++ sep ++ joinWithSep sep (r :: t)) ++ sep ++ joinWithSep sep l := by
          simp [List.append_assoc]
      _ = joinWithSep sep (q :: r :: t) ++ sep ++ joinWithSep sep l := rfl

/-- Appending one more paragraph to a join is `jsAppendPara`. -/
theorem join_snoc (g : List Str) (p : Str) (hg : ∀ q ∈ g, q ≠ []) :
    joinWithSep nlnl (g ++ [p]) = jsAppendPara (joinWithSep nlnl g) p := by
  cases g with
  | nil => simp [joinWithSep, jsAppendPara]
  | cons q t =>
    have hne : joinWithSep nlnl (q :: t) ≠ [] := by
      cases t with
      | nil =>
        simpa [joinWithSep] using hg q (List.mem_cons_self q [])
      | cons r t' =>
        simp only [joinWithSep]
        intro he
        have hq : q = [] := by
          cases hqe : q
          · rfl
          · rw [hqe] at he
            simp at he
        exact hg q (List.mem_cons_self q _) hq
    rw [join_append_ne nlnl (q :: t) [p] (by simp) (by simp)]
    unfold jsAppendPara
    rw [if_neg hne]
    simp [joinWithSep, nlnl, List.append_assoc]

/-- A join of nonempty strings over a nonempty list is nonempty. -/
theorem join_ne_nil :
    ∀ l : List Str, (∀ p ∈ l, p ≠ []) → l ≠ [] → joinWithSep nlnl l ≠ []
  | [], _, hl => absurd rfl hl
  | [p], h, _ => by simpa [joinWithSep] using h p (List.mem_cons_self p [])
  | p :: q :: t, h, _ => by
    simp only [joinWithSep]
    intro he
    have hp : p = [] := by
      cases hpe : p
      · rfl
      · rw [hpe] at he
        simp at he
    exact h p (List.mem_cons_self p _) hp

/-- Join of per-group joins is the join of the flattened groups. -/
theorem join_map_flatten :
    ∀ gs : List (List Str), (∀ g ∈ gs, g ≠ []) →
      joinWithSep nlnl (gs.map (joinWithSep nlnl)) =
        joinWithSep nlnl gs.flatten
  | [], _ => rfl
  | [g], _ => by simp [joinWithSep]
  | g :: g2 :: t, h => by
    have hg : g ≠ [] := h g (List.mem_cons_self g _)
    have hfl : (g2 :: t).flatten ≠ [] := by
      have hg2 : g2 ≠ [] := h g2 (by simp)
      simp only [List.flatten_cons]
      intro he
      rcases List.append_eq_nil.mp he with ⟨he2, _⟩
      exact hg2 he2
    have ih := join_map_flatten (g2 :: t)
      (fun x hx => h x (List.mem_cons_of_mem g hx))
    show joinWithSep nlnl g ++ nlnl ++
        joinWithSep nlnl ((g2 :: t).map (joinWithSep nlnl)) =
      joinWithSep nlnl (g :: g2 :: t).flatten
    rw [ih]
    have hfc : (g :: g2 :: t).flatten = g ++ (g2 :: t).flatten := rfl
    rw [hfc, join_append_ne nlnl g ((g2 :: t).flatten) hg hfl]

/-- Length of a join: the sum of the part lengths plus one separator
between consecutive parts. -/
theorem join_length :
    ∀ l : List Str, l ≠ [] →
      (joinWithSep nlnl l).length = (l.map List.length).sum + 2 * (l.length - 1)
  | [], hl => absurd rfl hl
  | [p], _ => by simp [joinWithSep]
  | p :: q :: t, _ => by
    have ih := join_length (q :: t) (by simp)
    show (p ++ nlnl ++ joinWithSep nlnl (q :: t)).length = _
    simp only [List.length_append, ih, List.map_cons, List.sum_cons,
      List.length_cons]
    have hsep : nlnl.length = 2 := rfl
    rw [hsep]
    omega

/-- First character of a join headed by a nonempty paragraph. -/
theorem join_head? (q : Str) (l : List Str) (hq : q ≠ []) :
    (joinWithSep nlnl (q :: l)).head? = q.head? := by
  cases l with
  | nil => rfl
  | cons r t =>
    show (q ++ nlnl ++ joinWithSep nlnl (r :: t)).head? = q.head?
    rw [List.append_assoc]
    cases hqe : q with
    | nil => exact absurd hqe hq
    | cons c cs => simp

/-- Some member of the list provides the join's last character. -/
theorem join_getLast?_mem :
    ∀ l : List Str, l ≠ [] → (∀ p ∈ l, p ≠ []) →
      ∃ q ∈ l, (joinWithSep nlnl l).getLast? = q.getLast?
  | [], hl, _ => absurd rfl hl
  | [p], _, _ => ⟨p, List.mem_cons_self p [], rfl⟩
  | p :: q :: t, _, h => by
    obtain ⟨r, hr, hlast⟩ := join_getLast?_mem (q :: t) (by simp)
      (fun x hx => h x (List.mem_cons_of_mem p hx))
    refine ⟨r, List.mem_cons_of_mem p hr, ?_⟩
    show (p ++ nlnl ++ joinWithSep nlnl (q :: t)).getLast? = r.getLast?
    rw [List.append_assoc]
    have e1 : (p ++ (nlnl ++ joinWithSep nlnl (q :: t))).getLast? =
        (nlnl ++ joinWithSep nlnl (q :: t)).getLast? :=
      List.getLast?_append_of_ne_nil p (by simp [nlnl])
    have e2 : (nlnl ++ joinWithSep nlnl (q :: t)).getLast? =
        (joinWithSep nlnl (q :: t)).getLast? :=
      List.getLast?_append_of_ne_nil nlnl
        (join_ne_nil (q :: t) (fun x hx => h x (List.mem_cons_of_mem p hx))
          (by simp))
    rw [e1, e2, hlast]

/-- `jsTrim` is the identity when both end characters are not whitespace. -/
theorem jsTrim_eq_self (s : Str)
    (hh : ∀ c, s.head? = some c → isJsSpace c = false)
    (hl : ∀ c, s.getLast? = some c → isJsSpace c = false) :
    jsTrim s = s := by
  unfold jsTrim
  have d1 : s.dropWhile isJsSpace = s := by
    cases hse : s with
    | nil => rfl
    | cons c t =>
      have := hh c (by rw [hse]; rfl)
      simp [List.dropWhile_cons, this]
  have d2 : s.reverse.dropWhile isJsSpace = s.reverse := by
    cases hre : s.reverse with
    | nil => rfl
    | cons c t =>
      have hlast : s.getLast? = some c := by
        rw [List.getLast?_eq_head?_reverse, hre]
        rfl
      have := hl c hlast
      simp [List.dropWhile_cons, this]
  rw [d1, d2, List.reverse_reverse]

/-- `jsTrim` is the identity on the join of a group of `paraOk`
paragraphs. -/
theorem jsTrim_join (maxChunkSize : Nat) (g : List Str) (hg : g ≠ [])
    (hok : ∀ p ∈ g, paraOk maxChunkSize p = true) :
    jsTrim (joinWithSep nlnl g) = joinWithSep nlnl g := by
  have hne : ∀ p ∈ g, p ≠ [] := fun p hp => (paraOk_strip (hok p hp)).1
  apply jsTrim_eq_self
  · intro c hc
    cases g with
    | nil => exact absurd rfl hg
    | cons q t =>
      rw [join_head? q t (hne q (List.mem_cons_self q t))] at hc
      exact (paraOk_strip (hok q (List.mem_cons_self q t))).2.2.2.1 c hc
  · intro c hc
    obtain ⟨r, hr, hlast⟩ := join_getLast?_mem g hg hne
    rw [hlast] at hc
    exact (paraOk_strip (hok r hr)).2.2.2.2.1 c hc

/-- Separator-skipping mode of the paragraph scanner just drops the rest
of the newline run. -/
theorem splitParasAux_skip :
    ∀ (s acc : Str),
      splitParasAux true acc s =
        splitParasAux false acc (s.dropWhile (fun c => decide (c = '\n')))
  | [], _ => rfl
  | c :: t, acc => by
    by_cases hc : c = '\n'
    · subst hc
      have h1 : splitParasAux true acc ('\n' :: t) = splitParasAux true acc t := by
        simp [splitParasAux]
      rw [h1, splitParasAux_skip t acc]
      simp [List.dropWhile_cons]
    · have h1 : splitParasAux true acc (c :: t) =
          splitParasAux false (c :: acc) t := by
        simp [splitParasAux, hc]
      have h2 : (c :: t).dropWhile (fun c => decide (c = '\n')) = c :: t := by
        simp [List.dropWhile_cons, hc]
      rw [h1, h2]
      simp [splitParasAux, hc]

/-- On a field containing no blank line, the scanner emits one field. -/
theorem splitParasAux_noBreak :
    ∀ (p acc : Str), hasDoubleNl p = false →
      splitParasAux false acc p = [acc.reverse ++ p]
  | [], acc, _ => by simp [splitParasAux]
  | c :: rest, acc, h => by
    have h' : (decide (c = '\n') && (match rest.head? with
        | some d => decide (d = '\n')
        | none => false)) = false ∧ hasDoubleNl rest = false := by
      have hh := h
      simp only [hasDoubleNl, Bool.or_eq_false_iff] at hh
      exact hh
    have hcond : ¬ (c = '\n' ∧ rest.head? = some '\n') := by
      rintro ⟨hc, hh⟩
      subst hc
      rw [hh] at h'
      simp at h'
    have hstep : splitParasAux false acc (c :: rest) =
        splitParasAux false (c :: acc) rest := by
      simp [splitParasAux, hcond]
    rw [hstep, splitParasAux_noBreak rest (c :: acc) h'.2]
    simp

/-- Hitting a separator after a clean field emits the field and enters
skipping mode. -/
theorem splitParasAux_break :
    ∀ (p rest acc : Str), hasDoubleNl p = false → p.getLast? ≠ some '\n' →
      splitParasAux false acc (p ++ '\n' :: '\n' :: rest) =
        (acc.reverse ++ p) :: splitParasAux true [] rest
  | [], rest, acc, _, _ => by
    have h1 : splitParasAux false acc ('\n' :: '\n' :: rest) =
        acc.reverse :: splitParasAux true [] ('\n' :: rest) := by
      simp [splitParasAux]
    have h2 : splitParasAux true [] ('\n' :: rest) =
        splitParasAux true [] rest := by
      simp [splitParasAux]
    simpa [h2] using h1
  | c :: p', rest, acc, h, hlast => by
    have h' : (decide (c = '\n') && (match p'.head? with
        | some d => decide (d = '\n')
        | none => false)) = false ∧ hasDoubleNl p' = false := by
      have hh := h
      simp only [hasDoubleNl, Bool.or_eq_false_iff] at hh
      exact hh
    have hlast' : p'.getLast? ≠ some '\n' := by
      cases p' with
      | nil => simp
      | cons d t' =>
        rw [List.getLast?_cons_cons] at hlast
        exact hlast
    have hstep : splitParasAux false acc ((c :: p') ++ '\n' :: '\n' :: rest) =
        splitParasAux false (c :: acc) (p' ++ '\n' :: '\n' :: rest) := by
      simp only [List.cons_append]
      simp [splitParasAux]
      intro hc hhead
      exfalso
      subst hc
      rcases hhead with hh | hh
      · rw [hh] at h'
        simp at h'
      · subst hh
        exact hlast rfl
    rw [hstep, splitParasAux_break p' rest (c :: acc) h'.2 hlast']
    simp

/-- `splitParas` inverts joining canonical paragraphs with `\n\n`. -/
theorem splitParas_join :
    ∀ ps : List Str, ps ≠ [] →
      (∀ p ∈ ps, p ≠ [] ∧ hasDoubleNl p = false ∧ p.head? ≠ some '\n' ∧
        p.getLast? ≠ some '\n') →
      splitParas (joinWithSep nlnl ps) = ps
  | [], h, _ => absurd rfl h
  | [p], _, hps => by
    have hp := hps p (List.mem_cons_self p [])
    show splitParasAux false [] p = [p]
    rw [splitParasAux_noBreak p [] hp.2.1]
    simp
  | p :: q :: t, _, hps => by
    have hp := hps p (List.mem_cons_self p _)
    have hq := hps q (by simp)
    have ih := splitParas_join (q :: t) (by simp)
      (fun x hx => hps x (List.mem_cons_of_mem p hx))
    show splitParasAux false [] (joinWithSep nlnl (p :: q :: t)) = p :: q :: t
    have hshape : joinWithSep nlnl (p :: q :: t) =
        p ++ '\n' :: '\n' :: joinWithSep nlnl (q :: t) := by
      show (p ++ nlnl) ++ joinWithSep nlnl (q :: t) = _
      rw [List.append_assoc]
      rfl
    rw [hshape, splitParasAux_break p _ [] hp.2.1 hp.2.2.2]
    rw [splitParasAux_skip]
    have hdw : (joinWithSep nlnl (q :: t)).dropWhile
        (fun c => decide (c = '\n')) = joinWithSep nlnl (q :: t) := by
      have hh : (joinWithSep nlnl (q :: t)).head? = q.head? :=
        join_head? q t hq.1
      cases hj : joinWithSep nlnl (q :: t) with
      | nil => rfl
      | cons c cs =>
        rw [hj] at hh
        have hc : c ≠ '\n' := by
          intro he
          subst he
          exact hq.2.2.1 hh.symm
        simp [List.dropWhile_cons, hc]
    rw [hdw]
    have hsp : splitParasAux false [] (joinWithSep nlnl (q :: t)) = q :: t := ih
    rw [hsp]
    simp

/-- Invariant of the accumulation loop: when every paragraph fits within
the limit, the loop only ever groups whole consecutive paragraphs; every
produced chunk is the `\n\n`-join of one group, and the pending
`currentChunk` is the join of the trailing group. -/
theorem chunkFold_groups (maxChunkSize : Nat) :
    ∀ (ps : List Str) (gs : List (List Str)) (g : List Str),
      (∀ p ∈ ps, paraOk maxChunkSize p = true) →
      (∀ grp ∈ gs, grp ≠ [] ∧ ∀ p ∈ grp, paraOk maxChunkSize p = true) →
      (∀ p ∈ g, paraOk maxChunkSize p = true) →
      ∃ (gs' : List (List Str)) (g' : List Str),
        ps.foldl (paraStep maxChunkSize)
            ⟨gs.map (joinWithSep nlnl), joinWithSep nlnl g⟩ =
          ⟨gs'.map (joinWithSep nlnl), joinWithSep nlnl g'⟩ ∧
        gs'.flatten ++ g' = gs.flatten ++ g ++ ps ∧
        (∀ grp ∈ gs', grp ≠ [] ∧ ∀ p ∈ grp, paraOk maxChunkSize p = true) ∧
        (∀ p ∈ g', paraOk maxChunkSize p = true) := by
  intro ps
  induction ps with
  | nil =>
    intro gs g _ hgs hg
    exact ⟨gs, g, rfl, by simp, hgs, hg⟩
  | cons p ps' ih =>
    intro gs g hps hgs hg
    have hpok := hps p (List.mem_cons_self p ps')
    have hps' : ∀ x ∈ ps', paraOk maxChunkSize x = true :=
      fun x hx => hps x (List.mem_cons_of_mem p hx)
    have hplen : p.length ≤ maxChunkSize := (paraOk_strip hpok).2.1
    have hgne : ∀ q ∈ g, q ≠ [] := fun q hq => (paraOk_strip (hg q hq)).1
    have hpsing : ∀ x ∈ [p], paraOk maxChunkSize x = true := by
      intro x hx
      rcases List.mem_singleton.mp hx with rfl
      exact hpok
    simp only [List.foldl_cons]
    by_cases hcond : maxChunkSize < (joinWithSep nlnl g).length + p.length
    · by_cases hge : g = []
      · exfalso
        subst hge
        simp only [joinWithSep, List.length_nil, Nat.zero_add] at hcond
        omega
      · have hjne : joinWithSep nlnl g ≠ [] := join_ne_nil g hgne hge
        have htrim := jsTrim_join maxChunkSize g hge hg
        have hstep : paraStep maxChunkSize
            ⟨gs.map (joinWithSep nlnl), joinWithSep nlnl g⟩ p =
            ⟨(gs ++ [g]).map (joinWithSep nlnl), joinWithSep nlnl [p]⟩ := by
          unfold paraStep
          simp [joinWithSep, hcond, hjne, htrim, Nat.not_lt.mpr hplen]
        rw [hstep]
        have hgs2 : ∀ grp ∈ gs ++ [g], grp ≠ [] ∧
            ∀ x ∈ grp, paraOk maxChunkSize x = true := by
          intro grp hgrp
          rcases List.mem_append.mp hgrp with hold | hnew
          · exact hgs grp hold
          · rcases List.mem_singleton.mp hnew with rfl
            exact ⟨hge, hg⟩
        obtain ⟨gs', g', hfold, hflat, hgs', hg'⟩ := ih (gs ++ [g]) [p] hps' hgs2 hpsing
        refine ⟨gs', g', hfold, ?_, hgs', hg'⟩
        rw [hflat]
        simp [List.flatten_append, List.append_assoc]
    · have hstep : paraStep maxChunkSize
          ⟨gs.map (joinWithSep nlnl), joinWithSep nlnl g⟩ p =
          ⟨gs.map (joinWithSep nlnl), joinWithSep nlnl (g ++ [p])⟩ := by
        unfold paraStep
        rw [if_neg hcond, join_snoc g p hgne]
      rw [hstep]
      have hgp : ∀ x ∈ g ++ [p], paraOk maxChunkSize x = true := by
        intro x hx
        rcases List.mem_append.mp hx with hxg | hxp
        · exact hg x hxg
        · rcases List.mem_singleton.mp hxp with rfl
          exact hpok
      obtain ⟨gs', g', hfold, hflat, hgs', hg'⟩ := ih gs (g ++ [p]) hps' hgs hgp
      refine ⟨gs', g', hfold, ?_, hgs', hg'⟩
      rw [hflat]
      simp [List.append_assoc]

/-- Sum of chunk lengths plus two per chunk. -/
theorem sum_len_plus_two :
    ∀ l : List Str, (l.map (fun c => c.length + 2)).sum =
      (l.map List.length).sum + 2 * l.length
  | [] => rfl
  | c :: t => by
    simp only [List.map_cons, List.sum_cons, List.length_cons,
      sum_len_plus_two t]
    omega

/-- C6, counterexample: on the input `" a"` (leading space) with the
default limit, the single produced chunk is trimmed to `"a"`, so
re-joining the chunks with the paragraph separator does not reproduce the
input. -/
theorem c6_counterexample :
    splitIntoChunks " a".toList 2000 = ["a".toList] ∧
    joinWithSep nlnl ["a".toList] ≠ " a".toList := by
  decide

/-- C6 (corrected): chunk reconstruction holds only for normalized input
— when the text is the `\n\n`-join of paragraphs that each fit within the
size limit, contain no blank line, and neither start nor end in
whitespace.  For such input, re-joining the chunks with `\n\n` reproduces
the text exactly, and the per-chunk lengths the Orchestrator consumes
(`chunk.length + 2`) sum to the text length plus 2 — i.e. each chunk but
the last consumes exactly the original characters it covers, and the last
overshoots by exactly the 2 characters of a nonexistent trailing
separator.  (In general reconstruction fails: trimming, whitespace
collapse in the sentence path, and `\n\n+` separator collapsing all lose
characters — see the counterexample.) -/
theorem chunk_reconstruction_normalized (maxChunkSize : Nat) (ps : List Str)
    (hne : ps ≠ []) (hok : ∀ p ∈ ps, paraOk maxChunkSize p = true) :
    joinWithSep nlnl (splitIntoChunks (joinWithSep nlnl ps) maxChunkSize) =
      joinWithSep nlnl ps ∧
    ((splitIntoChunks (joinWithSep nlnl ps) maxChunkSize).map
        (fun c => c.length + 2)).sum = (joinWithSep nlnl ps).length + 2 := by
  have hstrip : ∀ p ∈ ps, p ≠ [] ∧ hasDoubleNl p = false ∧
      p.head? ≠ some '\n' ∧ p.getLast? ≠ some '\n' := by
    intro p hp
    have h := paraOk_strip (hok p hp)
    exact ⟨h.1, h.2.2.1, h.2.2.2.2.2.1, h.2.2.2.2.2.2⟩
  have hsp := splitParas_join ps hne hstrip
  obtain ⟨gs', g', hfold, hflat, hgs', hg'⟩ :=
    chunkFold_groups maxChunkSize ps [] [] hok (by simp) (by simp)
  have hflat' : gs'.flatten ++ g' = ps := by
    rw [hflat]
    simp
  have hGS : ∃ GS : List (List Str),
      splitIntoChunks (joinWithSep nlnl ps) maxChunkSize =
        GS.map (joinWithSep nlnl) ∧
      GS.flatten = ps ∧
      (∀ grp ∈ GS, grp ≠ [] ∧ ∀ p ∈ grp, paraOk maxChunkSize p = true) := by
    have hchunks : splitIntoChunks (joinWithSep nlnl ps) maxChunkSize =
        (if (joinWithSep nlnl g') = [] then gs'.map (joinWithSep nlnl)
          else gs'.map (joinWithSep nlnl) ++ [jsTrim (joinWithSep nlnl g')]) := by
      unfold splitIntoChunks
      rw [hsp]
      have hfold2 : ps.foldl (paraStep maxChunkSize) ⟨[], []⟩ =
          (⟨gs'.map (joinWithSep nlnl), joinWithSep nlnl g'⟩ : ChunkAcc) := hfold
      rw [hfold2]
    by_cases hg'e : g' = []
    · refine ⟨gs', ?_, ?_, hgs'⟩
      · rw [hchunks]
        subst hg'e
        simp [joinWithSep]
      · subst hg'e
        simpa using hflat'
    · have hg'ne : ∀ q ∈ g', q ≠ [] := fun q hq => (paraOk_strip (hg' q hq)).1
      have hjne : joinWithSep nlnl g' ≠ [] := join_ne_nil g' hg'ne hg'e
      refine ⟨gs' ++ [g'], ?_, ?_, ?_⟩
      · rw [hchunks, if_neg hjne, jsTrim_join maxChunkSize g' hg'e hg']
        simp
      · rw [List.flatten_append]
        simpa using hflat'
      · intro grp hgrp
        rcases List.mem_append.mp hgrp with hold | hnew
        · exact hgs' grp hold
        · rcases List.mem_singleton.mp hnew with rfl
          exact ⟨hg'e, hg'⟩
  obtain ⟨GS, hchEq, hGSflat, hGSok⟩ := hGS
  have hGSne : ∀ grp ∈ GS, grp ≠ [] := fun grp h => (hGSok grp h).1
  have hGSnil : GS ≠ [] := by
    intro he
    subst he
    simp at hGSflat
    exact hne hGSflat
  have hjoin : joinWithSep nlnl (GS.map (joinWithSep nlnl)) =
      joinWithSep nlnl ps := by
    rw [join_map_flatten GS hGSne, hGSflat]
  constructor
  · rw [hchEq, hjoin]
  · rw [hchEq]
    have hmapne : GS.map (joinWithSep nlnl) ≠ [] := by
      simp [hGSnil]
    have hlen := join_length (GS.map (joinWithSep nlnl)) hmapne
    have hn : 1 ≤ (GS.map (joinWithSep nlnl)).length := by
      cases GS with
      | nil => exact absurd rfl hGSnil
      | cons a t => simp
    have hjlen : (joinWithSep nlnl ps).length =
        ((GS.map (joinWithSep nlnl)).map List.length).sum +
          2 * ((GS.map (joinWithSep nlnl)).length - 1) := by
      rw [← hjoin, hlen]
    rw [sum_len_plus_two, hjlen]
    omega

/-- Witness for C6's theorem on a one-paragraph input. -/
theorem chunk_reconstruction_normalized_witness :
    joinWithSep nlnl (splitIntoChunks (joinWithSep nlnl ["hi".toList]) 2000) =
      joinWithSep nlnl ["hi".toList] ∧
    ((splitIntoChunks (joinWithSep nlnl ["hi".toList]) 2000).map
        (fun c => c.length + 2)).sum =
      (joinWithSep nlnl ["hi".toList]).length + 2 :=
  chunk_reconstruction_normalized 2000 (["hi".toList]) (by decide) (by decide)

end QuranRAG
